import Mathlib

/-! Shallow embedding of `src/main.py` (awesomailer), a batch mail-merge
dispatcher with an append-only delivery ledger.  Python strings are Lean
`String`s (with `String.data : List Char`); CSV rows become structures of
`Option String` fields; filesystem, template-rendering and SMTP effects are
threaded as explicit function parameters. -/

namespace Mailer

/-- Python `s or d` for strings: `d` when `s` is empty, else `s`. -/
def pyOrS (s d : String) : String := if s = "" then d else s

/-- Python `(row.get(k) or d)`: `d` when the field is missing or empty. -/
def pyOr (o : Option String) (d : String) : String :=
  match o with
  | none => d
  | some s => pyOrS s d

/-- Python truthiness of an optional string field (`if row.get(k):`). -/
def optTruthy (o : Option String) : Bool :=
  match o with
  | none => false
  | some s => !(s == "")

/-- Python `str.strip()` (ASCII-whitespace model). -/
def pyStrip (s : String) : String :=
  String.mk (((s.data.dropWhile Char.isWhitespace).reverse.dropWhile Char.isWhitespace).reverse)

/-- Python `str.lower()` (ASCII model, matching `Char.toLower`). -/
def pyLower (s : String) : String := String.mk (s.data.map Char.toLower)

/-- Python `s.replace(a, b)` for one-character `a` and `b` (the only uses in the source). -/
def pyReplaceChar (a b : Char) (s : String) : String :=
  String.mk (s.data.map (fun c => if c = a then b else c))

/-- Python `c in s` for a one-character needle. -/
def containsChar (s : String) (c : Char) : Bool := s.data.contains c

/-- Helper for `pySplitChar`: accumulates the current chunk (reversed). -/
def splitCharAux (c : Char) : List Char → List Char → List (List Char)
  | [], acc => [acc.reverse]
  | x :: xs, acc =>
    if x = c then acc.reverse :: splitCharAux c xs []
    else splitCharAux c xs (x :: acc)

/-- Python `s.split(c)` for a one-character separator. -/
def pySplitChar (c : Char) (s : String) : List String :=
  (splitCharAux c s.data []).map String.mk

/-- `os.path.join a b` for the relative, non-empty components the source builds. -/
def pathJoin (a b : String) : String := a ++ "/" ++ b

/-- Lexicographic strict order on char lists by code point, as Python compares strings. -/
def charListLt : List Char → List Char → Bool
  | [], [] => false
  | [], _ :: _ => true
  | _ :: _, [] => false
  | a :: as, b :: bs =>
    if a.toNat < b.toNat then true
    else if b.toNat < a.toNat then false
    else charListLt as bs

/-- Boolean code-point-lexicographic `≤` on strings, used to model Python `sorted`. -/
def strLeB (a b : String) : Bool := !(charListLt b.data a.data)

instance : DecidableRel (fun a b : String => strLeB a b = true) :=
  fun _ _ => inferInstance

/-- The sort used to model Python `sorted` on lists of path strings. -/
def sortStrings (l : List String) : List String :=
  List.insertionSort (fun a b => strLeB a b = true) l

/-- One recipient row of the contacts CSV: the recognized columns, each possibly absent. -/
structure Row where
  email : Option String := none
  name : Option String := none
  lang : Option String := none
  cc : Option String := none
  bcc : Option String := none
  attachments : Option String := none
  subject_file : Option String := none
  body_file : Option String := none
  body_html_file : Option String := none
deriving DecidableEq

/-- One row of the `sent.csv` delivery ledger (the columns `append_sent_record` writes). -/
structure SentRecord where
  time : String := ""
  email : String
  name : String := ""
  lang : String := ""
  subject : String := ""
  status : String
  error : String := ""
deriving DecidableEq

/-- `read_sent_index` (src/main.py:108-114): scan the ledger rows in file
order, keying each row by its trimmed email; later rows overwrite earlier
ones.  The resulting dictionary is modelled as a lookup function. -/
def read_sent_index (log : List SentRecord) : String → Option SentRecord :=
  log.foldl (fun idx r => fun e => if pyStrip r.email = e then some r else idx e)
    (fun _ => none)

/-- Membership in `already_sent` (src/main.py:233): the email's
ledger-index record exists and has status `success`. -/
def alreadySent (log : List SentRecord) (e : String) : Bool :=
  match read_sent_index log e with
  | some r => r.status == "success"
  | none => false

/-- Process-wide configuration read from environment variables at startup. -/
structure Config where
  senderName : String
  senderEmail : String
  fromName : String
  fromEmail : String
  replyTo : String
  templateRoot : String
  attachLangFallback : Bool
deriving DecidableEq

/-- The filesystem and template-rendering effects used by composition,
threaded explicitly: `isfile`/`isdir` are `os.path.isfile`/`os.path.isdir`,
`readFile` is `read_text`, `glob` is `glob.glob`, and `render` is
`Template(text).safe_substitute(mapping)`. -/
structure World where
  isfile : String → Bool
  isdir : String → Bool
  readFile : String → String
  glob : String → List String
  render : String → List (String × String) → String

/-- The patterns parsed from an `attachments` field (src/main.py:92):
semicolons become commas, split on commas, trimmed, empties dropped. -/
def parsePatterns (value : String) : List String :=
  ((pySplitChar ',' (pyReplaceChar ';' ',' value)).map pyStrip).filter (fun p => p ≠ "")

/-- One pattern's contribution (src/main.py:94-99): the sorted glob matches
filtered to regular files; a pattern with no matches contributes nothing
(a warning only, never an error). -/
def perPattern (g : String → List String) (isf : String → Bool) (pat : String) : List String :=
  let ms := sortStrings (g pat)
  if ms = [] then [] else ms.filter isf

/-- First-seen-preserving deduplication (src/main.py:100-105), with the
`seen` set as an explicit list. -/
def dedupeFirst : List String → List String → List String
  | [], _ => []
  | f :: fs, seen =>
    if f ∈ seen then dedupeFirst fs seen else f :: dedupeFirst fs (f :: seen)

/-- `expand_attachments` (src/main.py:89-106), with `glob.glob` and
`os.path.isfile` as parameters. -/
def expandAttachments (g : String → List String) (isf : String → Bool) (value : String) :
    List String :=
  if value = "" then []
  else dedupeFirst (((parsePatterns value).map (perPattern g isf)).flatten) []

/-- Index of the first occurrence of `a` in `l` (the length of `l` when absent). -/
def firstPos : List String → String → Nat
  | [], _ => 0
  | x :: xs, a => if x = a then 0 else firstPos xs a + 1

/-- The lowercased, trimmed language tag with empty defaulting to `"en"`
(`load_templates`, src/main.py:63). -/
def normLang (lang : String) : String := pyLower (pyStrip (pyOrS lang "en"))

/-- The template paths of `load_templates` (src/main.py:63-67): the per-row
override when present, else the conventional path under the template root
and normalized language; each path is trimmed. -/
def templatePaths (cfg : Config) (row : Row) (lang : String) :
    String × String × String × String :=
  let l := normLang lang
  let dir := pathJoin cfg.templateRoot l
  (pyStrip (pyOr row.subject_file (pathJoin dir "subject.txt")),
   pyStrip (pyOr row.body_file (pathJoin dir "body.txt")),
   pyStrip (pyOr row.body_html_file (pathJoin dir "body.html")),
   l)

/-- `load_templates` (src/main.py:62-79): fails when the subject or the
plain-body template file is missing; a present, non-blank HTML template
yields an optional HTML body. -/
def load_templates (cfg : Config) (w : World) (lang : String) (row : Row) :
    Except String (String × String × Option String × String) :=
  let p := templatePaths cfg row lang
  if !w.isfile p.1 then .error ("Missing subject template: " ++ p.1)
  else if !w.isfile p.2.1 then .error ("Missing body template: " ++ p.2.1)
  else
    let htmlText :=
      if w.isfile p.2.2.1 then
        let c := pyStrip (w.readFile p.2.2.1)
        if c = "" then none else some c
      else none
    .ok (w.readFile p.1, w.readFile p.2.1, htmlText, p.2.2.2)

/-- The per-language fallback directory `os.path.join("attachments", lang)`
(src/main.py:187). -/
def attachLangDir (lang : String) : String := pathJoin "attachments" lang

/-- Attachment resolution inside `build_message` (src/main.py:185-189): the
row's expanded patterns; when that list is empty, the fallback is enabled
and the per-language directory exists, the sorted regular files matched by
`<dir>/*` instead. -/
def resolveAttachments (cfg : Config) (w : World) (lang : String) (attachField : String) :
    List String :=
  let files := expandAttachments w.glob w.isfile attachField
  if files.isEmpty && cfg.attachLangFallback && w.isdir (attachLangDir lang) then
    sortStrings ((w.glob (pathJoin (attachLangDir lang) "*")).filter w.isfile)
  else files

/-- The per-row substitution entries `{k: (v or "") for k, v in row.items()}`. -/
def rowPairs (row : Row) : List (String × String) :=
  [("email", pyOr row.email ""), ("name", pyOr row.name ""), ("lang", pyOr row.lang ""),
   ("cc", pyOr row.cc ""), ("bcc", pyOr row.bcc ""), ("attachments", pyOr row.attachments ""),
   ("subject_file", pyOr row.subject_file ""), ("body_file", pyOr row.body_file ""),
   ("body_html_file", pyOr row.body_html_file "")]

/-- The substitution context `{**DEFAULTS, **row}` (src/main.py:169); row
entries come later and win on key collision. -/
def substMapping (cfg : Config) (row : Row) : List (String × String) :=
  [("from_name", cfg.fromName), ("from_email", cfg.fromEmail), ("reply_to", cfg.replyTo)]
    ++ rowPairs row

/-- The composed message `build_message` returns: the final header list in
insertion order, the rendered single-line subject, the transport recipient
list, the resolved attachment paths, and the rendered bodies. -/
structure BuiltMessage where
  headers : List (String × String)
  subject : String
  recipients : List String
  attachments : List String
  bodyText : String
  bodyHtml : Option String
deriving DecidableEq

/-- Comma/semicolon-separated address fields (src/main.py:197 and 199):
trimmed entries, empties dropped. -/
def splitAddrs (s : String) : List String :=
  ((pySplitChar ',' (pyReplaceChar ';' ',' s)).map pyStrip).filter (fun a => a ≠ "")

/-- `build_message` (src/main.py:163-204).  The trimmed email must be
non-empty and contain `@`; templates are resolved and rendered; `Cc` and
`Bcc` headers are set from the raw fields when truthy; the transport
recipient list is primary, then cc, then bcc entries; and when a `bcc`
field is truthy its header is deleted again before returning.  Attachment
I/O errors (src/main.py:190-194) only skip the attachment and are not
modelled beyond the resolved path list. -/
def buildMessage (cfg : Config) (w : World) (row : Row) : Except String BuiltMessage :=
  let lang0 := pyLower (pyStrip (pyOr row.lang "en"))
  let toA := pyStrip (pyOr row.email "")
  if toA = "" || !containsChar toA '@' then .error ("Invalid recipient: " ++ toA)
  else
    match load_templates cfg w lang0 row with
    | .error e => .error e
    | .ok (subjectTpl, bodyTpl, htmlTpl, lang) =>
      let mapping := substMapping cfg row
      let subject := pyReplaceChar '\n' ' ' (pyStrip (w.render subjectTpl mapping))
      let bodyText := w.render bodyTpl mapping
      let headers0 :=
        [("Subject", subject),
         ("From", cfg.senderName ++ " <" ++ cfg.senderEmail ++ ">"),
         ("To", toA)]
        ++ (if optTruthy row.cc then [("Cc", pyOr row.cc "")] else [])
        ++ (if optTruthy row.bcc then [("Bcc", pyOr row.bcc "")] else [])
        ++ (if cfg.replyTo ≠ "" then [("Reply-To", cfg.replyTo)] else [])
      let bodyHtml := htmlTpl.map (fun h => w.render h mapping)
      let files := resolveAttachments cfg w lang (row.attachments.getD "")
      let recipients :=
        [toA]
        ++ (if optTruthy row.cc then splitAddrs (pyOr row.cc "") else [])
        ++ (if optTruthy row.bcc then splitAddrs (pyOr row.bcc "") else [])
      let headers :=
        if optTruthy row.bcc then headers0.filter (fun h => h.1 ≠ "Bcc") else headers0
      .ok { headers := headers, subject := subject, recipients := recipients,
            attachments := files, bodyText := bodyText, bodyHtml := bodyHtml }

/-- Per-run dispatcher state: the ledger events appended this run, the
transport calls made and the composition attempts started, each tagged with
the recipient's row index; the `sent` counter; and whether the loop has hit
its limit and stopped.  The row-index tags are ghost bookkeeping for the
proofs; the appended ledger rows are the second components. -/
structure BatchState where
  events : List (Nat × SentRecord)
  calls : List Nat
  attempts : List Nat
  sent : Nat
  stopped : Bool
deriving DecidableEq

/-- The state at the start of the loop of `send_batch` (src/main.py:274). -/
def initState : BatchState :=
  { events := [], calls := [], attempts := [], sent := 0, stopped := false }

/-- The ledger row `append_sent_record` writes (src/main.py:116-130).  The
wall-clock `time` column is abstracted to `""`; no claim concerns it. -/
def mkSentRecord (row : Row) (subject status error : String) : SentRecord :=
  { time := "", email := pyStrip (pyOr row.email ""), name := pyStrip (pyOr row.name ""),
    lang := pyStrip (pyOr row.lang ""), subject := subject, status := status, error := error }

/-- The trimmed primary address of a row (src/main.py:276). -/
def rowTo (row : Row) : String := pyStrip (pyOr row.email "")

/-- Well-formedness test of src/main.py:277: non-empty after trimming and containing `@`. -/
def rowValid (row : Row) : Bool := !(rowTo row == "") && containsChar (rowTo row) '@'

/-- The `sent >= limit` test of src/main.py:291 (no limit means never). -/
def reachedLimit : Option Nat → Nat → Bool
  | none, _ => false
  | some l, n => decide (l ≤ n)

/-- One iteration of the dispatch loop (src/main.py:275-296) for the row at
index `p.1`: do nothing when the loop has stopped; skip silently when the
address is malformed, or when it is already delivered and `resend` is off;
otherwise compose and send, appending exactly one `success` or `failed`
ledger event.  `tr` is the SMTP transport (`server.send_message`); the
inter-send sleep has no observable state here. -/
def sendStep (cfg : Config) (w : World) (tr : BuiltMessage → Except String Unit)
    (resend : Bool) (limit : Option Nat) (already : String → Bool)
    (s : BatchState) (p : Nat × Row) : BatchState :=
  if s.stopped then s
  else
    let toA := rowTo p.2
    if toA == "" || !containsChar toA '@' then s
    else if !resend && already toA then s
    else
      match buildMessage cfg w p.2 with
      | .error e =>
        { s with events := s.events ++ [(p.1, mkSentRecord p.2 "" "failed" e)],
                 attempts := s.attempts ++ [p.1] }
      | .ok m =>
        match tr m with
        | .error e =>
          { s with events := s.events ++ [(p.1, mkSentRecord p.2 m.subject "failed" e)],
                   attempts := s.attempts ++ [p.1], calls := s.calls ++ [p.1] }
        | .ok _ =>
          { s with events := s.events ++ [(p.1, mkSentRecord p.2 m.subject "success" "")],
                   attempts := s.attempts ++ [p.1], calls := s.calls ++ [p.1],
                   sent := s.sent + 1,
                   stopped := reachedLimit limit (s.sent + 1) }

/-- The dispatch loop over (index, row) pairs. -/
def runFrom (cfg : Config) (w : World) (tr : BuiltMessage → Except String Unit)
    (resend : Bool) (limit : Option Nat) (already : String → Bool) :
    BatchState → List (Nat × Row) → BatchState
  | s, [] => s
  | s, p :: ps =>
    runFrom cfg w tr resend limit already (sendStep cfg w tr resend limit already s p) ps

/-- The non-dry-run path of `send_batch` (src/main.py:269-298): rebuild the
ledger index, derive the already-delivered set once, and run the loop over
the enumerated contact rows from the initial state. -/
def sendBatch (cfg : Config) (w : World) (tr : BuiltMessage → Except String Unit)
    (resend : Bool) (limit : Option Nat) (log : List SentRecord) (rows : List Row) :
    BatchState :=
  runFrom cfg w tr resend limit (alreadySent log) initState rows.enum

/-- A minimal configuration for concrete runs. -/
def cfg0 : Config :=
  { senderName := "Bot", senderEmail := "bot@x.com", fromName := "Bot",
    fromEmail := "bot@x.com", replyTo := "", templateRoot := "templates",
    attachLangFallback := false }

/-- A world where every file exists with content `"hello"`, globbing
matches nothing and rendering returns the template text unchanged. -/
def w0 : World :=
  { isfile := fun _ => true, isdir := fun _ => false, readFile := fun _ => "hello",
    glob := fun _ => [], render := fun t _ => t }

/-- A world with no files at all: composition fails on the subject template. -/
def wNoFiles : World := { w0 with isfile := fun _ => false }

/-- A transport that accepts every message. -/
def trOk : BuiltMessage → Except String Unit := fun _ => .ok ()

/-- A transport that rejects every message. -/
def trDown : BuiltMessage → Except String Unit := fun _ => .error "smtp down"

def rowA : Row := { email := some "a@x.com" }

def rowB : Row := { email := some "b@x.com" }

/-- A recipient whose email lacks an `@`. -/
def rowBad : Row := { email := some "bad" }

/-- A recipient with a blind-copy field holding two addresses, one padded
and one followed by a stray separator. -/
def rowBcc : Row := { email := some "a@x.com", bcc := some "b@x.com; c@x.com ," }

/-- Ledger fixture: a success then a failure for the same address. -/
def recSuccessA : SentRecord := { email := "a@x.com", subject := "S", status := "success" }

def recFailedA : SentRecord :=
  { email := "a@x.com", subject := "S", status := "failed", error := "boom" }

def logSF : List SentRecord := [recSuccessA, recFailedA]

/-- A directory entry of the modelled filesystem used for the attachment
fallback claims: parent directory, entry name, and whether the entry is a
regular file. -/
structure DirEntry where
  dir : String
  name : String
  regular : Bool
deriving DecidableEq

def entryPath (e : DirEntry) : String := pathJoin e.dir e.name

/-- Whether `glob` hides a name from the `*` wildcard (leading dot). -/
def hiddenName (s : String) : Bool :=
  match s.data with
  | [] => false
  | c :: _ => c == '.'

/-- The paths `glob.glob(d ++ "/*")` returns over the modelled entries:
entries directly inside `d` whose names do not start with a dot, since
Python `glob` never matches hidden files with `*`. -/
def globStarSem (entries : List DirEntry) (d : String) : List String :=
  (entries.filter (fun e => e.dir == d && !hiddenName e.name)).map entryPath

/-- `os.path.isfile` over the modelled entries. -/
def isFileSem (entries : List DirEntry) (p : String) : Bool :=
  entries.any (fun e => entryPath e == p && e.regular)

/-- Counterexample filesystem: the fallback directory exists and holds a
single regular file whose name starts with a dot. -/
def hiddenEntries : List DirEntry :=
  [{ dir := "attachments/en", name := ".secret", regular := true }]

def wHidden : World :=
  { isfile := isFileSem hiddenEntries,
    isdir := fun d => d == "attachments/en",
    readFile := fun _ => "hello",
    glob := fun p =>
      if p == "attachments/en/*" then globStarSem hiddenEntries "attachments/en" else [],
    render := fun t _ => t }

def cfgFallback : Config := { cfg0 with attachLangFallback := true }

/-- Glob behaviour of a filesystem holding one regular file reachable under
two spellings, with and without a leading `./`. -/
def gDouble : String → List String :=
  fun pat => if pat = "./a.txt" then ["./a.txt"] else if pat = "a.txt" then ["a.txt"] else []

def isfDouble : String → Bool := fun p => p == "./a.txt" || p == "a.txt"

/-- Strip one leading `./`: both spellings of the C10 file agree once canonicalized. -/
def dropDotSlash (s : String) : String :=
  match s.data with
  | '.' :: '/' :: rest => String.mk rest
  | _ => s

/-- A row whose language tag is whitespace-only. -/
def rowLangWs : Row := { email := some "a@x.com", lang := some "  " }

/-- A fallback directory holding two ordinary regular files. -/
def plainEntries : List DirEntry :=
  [{ dir := "attachments/en", name := "b.pdf", regular := true },
   { dir := "attachments/en", name := "a.pdf", regular := true }]

def wPlain : World :=
  { isfile := isFileSem plainEntries,
    isdir := fun d => d == "attachments/en",
    readFile := fun _ => "hello",
    glob := fun p =>
      if p == "attachments/en/*" then globStarSem plainEntries "attachments/en" else [],
    render := fun t _ => t }

/-- The message `build_message` composes for `rowBcc` under `cfg0`/`w0`. -/
def mBcc : BuiltMessage :=
  { headers := [("Subject", "hello"), ("From", "Bot <bot@x.com>"), ("To", "a@x.com")],
    subject := "hello",
    recipients := ["a@x.com", "b@x.com", "c@x.com"],
    attachments := [], bodyText := "hello", bodyHtml := some "hello" }

/-- The condition under which the loop body reaches composition for a row
(src/main.py:277-282): well-formed address, and not skipped as already
delivered. -/
def rowEligible (resend : Bool) (already : String → Bool) (row : Row) : Bool :=
  rowValid row && (resend || !already (rowTo row))

/-- The body of the `try` block (src/main.py:284-296) as a state
transformer: compose, transport, and append the one resulting ledger
event. -/
def attemptStep (cfg : Config) (w : World) (tr : BuiltMessage → Except String Unit)
    (limit : Option Nat) (s : BatchState) (p : Nat × Row) : BatchState :=
  match buildMessage cfg w p.2 with
  | .error e =>
    { s with events := s.events ++ [(p.1, mkSentRecord p.2 "" "failed" e)],
             attempts := s.attempts ++ [p.1] }
  | .ok m =>
    match tr m with
    | .error e =>
      { s with events := s.events ++ [(p.1, mkSentRecord p.2 m.subject "failed" e)],
               attempts := s.attempts ++ [p.1], calls := s.calls ++ [p.1] }
    | .ok _ =>
      { s with events := s.events ++ [(p.1, mkSentRecord p.2 m.subject "success" "")],
               attempts := s.attempts ++ [p.1], calls := s.calls ++ [p.1],
               sent := s.sent + 1,
               stopped := reachedLimit limit (s.sent + 1) }

/-- The one ledger event an attempted row appends. -/
def rowEvent (cfg : Config) (w : World) (tr : BuiltMessage → Except String Unit)
    (p : Nat × Row) : Nat × SentRecord :=
  match buildMessage cfg w p.2 with
  | .error e => (p.1, mkSentRecord p.2 "" "failed" e)
  | .ok m =>
    match tr m with
    | .error e => (p.1, mkSentRecord p.2 m.subject "failed" e)
    | .ok _ => (p.1, mkSentRecord p.2 m.subject "success" "")

/-- The transport calls an attempted row makes: none when composition
fails, one otherwise. -/
def rowCalls (cfg : Config) (w : World) (p : Nat × Row) : List Nat :=
  match buildMessage cfg w p.2 with
  | .error _ => []
  | .ok _ => [p.1]

/-- Whether an attempted row ends in a successful send. -/
def rowSendOk (cfg : Config) (w : World) (tr : BuiltMessage → Except String Unit)
    (row : Row) : Bool :=
  match buildMessage cfg w row with
  | .error _ => false
  | .ok m =>
    match tr m with
    | .error _ => false
    | .ok _ => true

/-! Order lemmas for the code-point-lexicographic comparison. -/

theorem charListLt_asymm : ∀ x y : List Char, charListLt x y = true → charListLt y x = false
  | [], [], h => by simp [charListLt] at h
  | [], _ :: _, _ => by simp [charListLt]
  | _ :: _, [], h => by simp [charListLt] at h
  | a :: as, b :: bs, h => by
    simp only [charListLt] at h ⊢
    rcases Nat.lt_trichotomy a.toNat b.toNat with hab | hab | hab
    · simp [show ¬ b.toNat < a.toNat by omega, hab]
    · simp only [show ¬ a.toNat < b.toNat by omega, show ¬ b.toNat < a.toNat by omega,
        if_false, ite_false, if_neg] at h ⊢
      exact charListLt_asymm as bs h
    · simp [show ¬ a.toNat < b.toNat by omega, hab] at h

theorem charListLt_trichotomy : ∀ x y : List Char,
    charListLt x y = true ∨ charListLt y x = true ∨ x = y
  | [], [] => by simp [charListLt]
  | [], _ :: _ => by simp [charListLt]
  | _ :: _, [] => by simp [charListLt]
  | a :: as, b :: bs => by
    rcases Nat.lt_trichotomy a.toNat b.toNat with hab | hab | hab
    · exact Or.inl (by simp [charListLt, hab])
    · have hba : ¬ a.toNat < b.toNat := by omega
      have hba2 : ¬ b.toNat < a.toNat := by omega
      have hch : a = b := Char.ext (UInt32.ext hab)
      rcases charListLt_trichotomy as bs with h | h | h
      · exact Or.inl (by simp [charListLt, hba, hba2, h])
      · exact Or.inr (Or.inl (by simp [charListLt, hba, hba2, hab, h]))
      · exact Or.inr (Or.inr (by rw [hch, h]))
    · exact Or.inr (Or.inl (by simp [charListLt, hab]))

theorem charListLt_trans : ∀ x y z : List Char,
    charListLt x y = true → charListLt y z = true → charListLt x z = true
  | [], [], _, h, _ => by simp [charListLt] at h
  | [], _ :: _, [], _, h => by simp [charListLt] at h
  | [], _ :: _, _ :: _, _, _ => by simp [charListLt]
  | _ :: _, [], _, h, _ => by simp [charListLt] at h
  | _ :: _, _ :: _, [], _, h => by simp [charListLt] at h
  | a :: as, b :: bs, c :: cs, h1, h2 => by
    simp only [charListLt] at h1 h2 ⊢
    have hab2 : a.toNat < b.toNat ∨ (a.toNat = b.toNat ∧ charListLt as bs = true) := by
      rcases Nat.lt_trichotomy a.toNat b.toNat with hh | hh | hh
      · exact Or.inl hh
      · refine Or.inr ⟨hh, ?_⟩
        simpa [show ¬ a.toNat < b.toNat by omega, show ¬ b.toNat < a.toNat by omega] using h1
      · rw [if_neg (by omega), if_pos hh] at h1
        exact Bool.noConfusion h1
    have hbc2 : b.toNat < c.toNat ∨ (b.toNat = c.toNat ∧ charListLt bs cs = true) := by
      rcases Nat.lt_trichotomy b.toNat c.toNat with hh | hh | hh
      · exact Or.inl hh
      · refine Or.inr ⟨hh, ?_⟩
        simpa [show ¬ b.toNat < c.toNat by omega, show ¬ c.toNat < b.toNat by omega] using h2
      · rw [if_neg (by omega), if_pos hh] at h2
        exact Bool.noConfusion h2
    rcases hab2 with hab | ⟨hab, htab⟩
    · rcases hbc2 with hbc | ⟨hbc, _⟩
      · simp [show a.toNat < c.toNat by omega]
      · simp [show a.toNat < c.toNat by omega]
    · rcases hbc2 with hbc | ⟨hbc, htbc⟩
      · simp [show a.toNat < c.toNat by omega]
      · rw [if_neg (by omega), if_neg (by omega)]
        exact charListLt_trans as bs cs htab htbc

instance : IsTotal String (fun a b => strLeB a b = true) := by
  constructor
  intro a b
  rcases charListLt_trichotomy a.data b.data with h | h | h
  · exact Or.inl (by simp [strLeB, charListLt_asymm _ _ h])
  · exact Or.inr (by simp [strLeB, charListLt_asymm _ _ h])
  · refine Or.inl ?_
    have hx : a = b := congrArg String.mk h
    subst hx
    cases h2 : charListLt a.data a.data with
    | false => simp [strLeB, h2]
    | true =>
      have hfalse := charListLt_asymm _ _ h2
      rw [h2] at hfalse
      exact Bool.noConfusion hfalse

instance : IsTrans String (fun a b => strLeB a b = true) := by
  constructor
  intro a b c h1 h2
  simp only [strLeB, Bool.not_eq_true'] at h1 h2 ⊢
  by_contra hh
  have hca : charListLt c.data a.data = true := by
    cases h : charListLt c.data a.data
    · exact absurd h hh
    · rfl
  rcases charListLt_trichotomy a.data b.data with hab | hab | hab
  · have := charListLt_trans _ _ _ hca hab
    rw [this] at h2; exact Bool.noConfusion h2
  · rw [hab] at h1; exact Bool.noConfusion h1
  · rw [hab] at hca
    rw [hca] at h2; exact Bool.noConfusion h2

/-! Deduplication lemmas. -/

theorem mem_dedupeFirst : ∀ (l seen : List String) (a : String),
    a ∈ dedupeFirst l seen ↔ a ∈ l ∧ a ∉ seen
  | [], seen, a => by simp [dedupeFirst]
  | f :: fs, seen, a => by
    simp only [dedupeFirst]
    by_cases hf : f ∈ seen
    · rw [if_pos hf, mem_dedupeFirst fs seen a]
      constructor
      · rintro ⟨h1, h2⟩
        exact ⟨List.mem_cons_of_mem _ h1, h2⟩
      · rintro ⟨h1, h2⟩
        rcases List.mem_cons.mp h1 with h | h
        · exact absurd (h ▸ hf) h2
        · exact ⟨h, h2⟩
    · rw [if_neg hf]
      constructor
      · intro hmem
        rcases List.mem_cons.mp hmem with h | h
        · subst h
          exact ⟨List.mem_cons_self _ _, hf⟩
        · have h' := (mem_dedupeFirst fs (f :: seen) a).mp h
          exact ⟨List.mem_cons_of_mem _ h'.1, fun hs => h'.2 (List.mem_cons_of_mem _ hs)⟩
      · rintro ⟨h1, h2⟩
        by_cases hfa : a = f
        · subst hfa
          exact List.mem_cons_self _ _
        · rcases List.mem_cons.mp h1 with h | h
          · exact absurd h hfa
          · refine List.mem_cons_of_mem _ ((mem_dedupeFirst fs (f :: seen) a).mpr ⟨h, ?_⟩)
            intro hs
            rcases List.mem_cons.mp hs with hh | hh
            · exact hfa hh
            · exact h2 hh

theorem dedupeFirst_nodup : ∀ (l seen : List String), (dedupeFirst l seen).Nodup
  | [], _ => List.nodup_nil
  | f :: fs, seen => by
    simp only [dedupeFirst]
    by_cases hf : f ∈ seen
    · rw [if_pos hf]; exact dedupeFirst_nodup fs seen
    · rw [if_neg hf]
      refine List.nodup_cons.mpr ⟨fun hmem => ?_, dedupeFirst_nodup fs (f :: seen)⟩
      exact ((mem_dedupeFirst fs (f :: seen) f).mp hmem).2 (List.mem_cons_self f seen)

theorem dedupeFirst_pairwise_firstPos : ∀ (l seen : List String),
    (dedupeFirst l seen).Pairwise (fun a b => firstPos l a < firstPos l b)
  | [], _ => List.Pairwise.nil
  | f :: fs, seen => by
    simp only [dedupeFirst]
    by_cases hf : f ∈ seen
    · rw [if_pos hf]
      refine (dedupeFirst_pairwise_firstPos fs seen).imp_of_mem ?_
      intro a b ha hb hlt
      have ha' := (mem_dedupeFirst fs seen a).mp ha
      have hb' := (mem_dedupeFirst fs seen b).mp hb
      have haf : f ≠ a := fun h => ha'.2 (h ▸ hf)
      have hbf : f ≠ b := fun h => hb'.2 (h ▸ hf)
      have e1 : firstPos (f :: fs) a = firstPos fs a + 1 := by simp [firstPos, hbf, haf]
      have e2 : firstPos (f :: fs) b = firstPos fs b + 1 := by simp [firstPos, hbf, haf]
      omega
    · rw [if_neg hf]
      refine List.pairwise_cons.mpr ⟨?_, ?_⟩
      · intro b hb
        have hb' := (mem_dedupeFirst fs (f :: seen) b).mp hb
        have hbf : f ≠ b := fun h => hb'.2 (h ▸ List.mem_cons_self f seen)
        have e1 : firstPos (f :: fs) f = 0 := by simp [firstPos]
        have e2 : firstPos (f :: fs) b = firstPos fs b + 1 := by simp [firstPos, hbf]
        omega
      · refine (dedupeFirst_pairwise_firstPos fs (f :: seen)).imp_of_mem ?_
        intro a b ha hb hlt
        have ha' := (mem_dedupeFirst fs (f :: seen) a).mp ha
        have hb' := (mem_dedupeFirst fs (f :: seen) b).mp hb
        have haf : f ≠ a := fun h => ha'.2 (h ▸ List.mem_cons_self f seen)
        have hbf : f ≠ b := fun h => hb'.2 (h ▸ List.mem_cons_self f seen)
        have e1 : firstPos (f :: fs) a = firstPos fs a + 1 := by simp [firstPos, haf]
        have e2 : firstPos (f :: fs) b = firstPos fs b + 1 := by simp [firstPos, hbf]
        omega

/-! Attachment-expansion lemmas. -/

theorem mem_perPattern (g : String → List String) (isf : String → Bool) (pat p : String) :
    p ∈ perPattern g isf pat ↔ p ∈ g pat ∧ isf p = true := by
  have hperm : (sortStrings (g pat)).Perm (g pat) :=
    List.perm_insertionSort (fun a b => strLeB a b = true) (g pat)
  by_cases hnil : sortStrings (g pat) = []
  · have hg : g pat = [] := ((hnil ▸ hperm).symm).eq_nil
    have h0 : sortStrings ([] : List String) = [] := rfl
    simp [perPattern, hnil, hg, h0]
  · have hpp : perPattern g isf pat = (sortStrings (g pat)).filter isf := by
      simp [perPattern, hnil]
    rw [hpp, List.mem_filter, hperm.mem_iff]

theorem mem_expandFiles (g : String → List String) (isf : String → Bool) (value p : String) :
    p ∈ (((parsePatterns value).map (perPattern g isf)).flatten) ↔
      ∃ pat ∈ parsePatterns value, p ∈ g pat ∧ isf p = true := by
  rw [List.mem_flatten]
  constructor
  · rintro ⟨sub, hsub, hin⟩
    rcases List.mem_map.mp hsub with ⟨pat, hpat, rfl⟩
    exact ⟨pat, hpat, (mem_perPattern g isf pat p).mp hin⟩
  · rintro ⟨pat, hpat, hin⟩
    exact ⟨perPattern g isf pat, List.mem_map.mpr ⟨pat, hpat, rfl⟩,
      (mem_perPattern g isf pat p).mpr hin⟩

/-- C8: the resolved attachment list equals the per-pattern matches
(filtered to regular files, concatenated in pattern order) deduplicated
keeping first occurrences: it has no duplicate, its membership is exactly
that of the concatenation — equivalently, a path appears iff some parsed
pattern glob-matches it and it is a regular file, so a pattern matching
nothing contributes nothing — and its order is strictly increasing in the
position of each path's first occurrence in the concatenation. -/
theorem claim_C8 (g : String → List String) (isf : String → Bool) (value : String) :
    (expandAttachments g isf value).Nodup
    ∧ (∀ p, p ∈ expandAttachments g isf value ↔
        p ∈ (((parsePatterns value).map (perPattern g isf)).flatten))
    ∧ (∀ p, p ∈ expandAttachments g isf value ↔
        ∃ pat ∈ parsePatterns value, p ∈ g pat ∧ isf p = true)
    ∧ (expandAttachments g isf value).Pairwise
        (fun a b =>
          firstPos (((parsePatterns value).map (perPattern g isf)).flatten) a
            < firstPos (((parsePatterns value).map (perPattern g isf)).flatten) b) := by
  by_cases hv : value = ""
  · subst hv
    have hparse : parsePatterns "" = [] := by decide
    simp [expandAttachments, hparse]
  · have hexp : expandAttachments g isf value =
        dedupeFirst (((parsePatterns value).map (perPattern g isf)).flatten) [] := by
      simp [expandAttachments, hv]
    rw [hexp]
    refine ⟨dedupeFirst_nodup _ _, ?_, ?_, dedupeFirst_pairwise_firstPos _ _⟩
    · intro p
      rw [mem_dedupeFirst]
      simp
    · intro p
      rw [mem_dedupeFirst]
      simp only [List.not_mem_nil, not_false_eq_true, and_true]
      exact mem_expandFiles g isf value p

/-- C10: deduplication is by literal path string, not file identity — a
filesystem exposing one regular file under the two spellings `./a.txt` and
`a.txt` (equal once the leading `./` is stripped) yields a resolved list
containing the file twice, once under each spelling. -/
theorem claim_C10 :
    expandAttachments gDouble isfDouble "./a.txt,a.txt" = ["./a.txt", "a.txt"]
    ∧ dropDotSlash "./a.txt" = dropDotSlash "a.txt"
    ∧ "./a.txt" ≠ "a.txt"
    ∧ isfDouble "./a.txt" = true
    ∧ isfDouble "a.txt" = true := by
  refine ⟨by decide, by decide, by decide, by decide, by decide⟩

/-! Ledger-index lemmas. -/

theorem read_sent_index_step (l : List SentRecord) (a : SentRecord) (e : String) :
    read_sent_index (l ++ [a]) e
      = if pyStrip a.email = e then some a else read_sent_index l e := by
  simp only [read_sent_index]
  rw [List.foldl_concat]

/-- C2: rebuilding the ledger index is last-write-wins per trimmed email —
the index lookup equals the last row in file order whose trimmed email
matches; concretely, after a `success` then a `failed` event for
`a@x.com`, the index reports the `failed` record, the address is not in
the already-sent set, and a subsequent `resend=false` run dispatches to it
again (one attempt, one transport call). -/
theorem claim_C2 :
    (∀ (log : List SentRecord) (e : String),
        read_sent_index log e = (log.filter (fun r => pyStrip r.email == e)).getLast?)
    ∧ read_sent_index logSF "a@x.com" = some recFailedA
    ∧ recFailedA.status = "failed"
    ∧ alreadySent logSF "a@x.com" = false
    ∧ (sendBatch cfg0 w0 trOk false none logSF [rowA]).attempts = [0]
    ∧ (sendBatch cfg0 w0 trOk false none logSF [rowA]).calls = [0]
    ∧ (sendBatch cfg0 w0 trOk false none logSF [rowA]).events.map
        (fun e => (e.1, e.2.status)) = [(0, "success")] := by
  refine ⟨?_, by decide, by decide, by decide, by decide, by decide, by decide⟩
  intro log e
  induction log using List.reverseRecOn with
  | nil => rfl
  | append_singleton l a ih =>
    rw [read_sent_index_step, List.filter_append]
    by_cases h : pyStrip a.email = e
    · have hfa : List.filter (fun r => pyStrip r.email == e) [a] = [a] := by
        simp [List.filter_cons, h]
      rw [if_pos h, hfa, List.getLast?_concat]
    · have hfa : List.filter (fun r => pyStrip r.email == e) [a] = [] := by
        simp [List.filter_cons, h]
      rw [if_neg h, hfa, List.append_nil, ih]

/-! Dispatcher-loop lemmas. -/

theorem runFrom_nil (cfg : Config) (w : World) (tr : BuiltMessage → Except String Unit)
    (re : Bool) (li : Option Nat) (al : String → Bool) (s : BatchState) :
    runFrom cfg w tr re li al s [] = s := rfl

theorem runFrom_cons (cfg : Config) (w : World) (tr : BuiltMessage → Except String Unit)
    (re : Bool) (li : Option Nat) (al : String → Bool) (s : BatchState)
    (p : Nat × Row) (ps : List (Nat × Row)) :
    runFrom cfg w tr re li al s (p :: ps)
      = runFrom cfg w tr re li al (sendStep cfg w tr re li al s p) ps := rfl

theorem sendStep_stopped (cfg : Config) (w : World) (tr : BuiltMessage → Except String Unit)
    (re : Bool) (li : Option Nat) (al : String → Bool) (s : BatchState) (p : Nat × Row)
    (h : s.stopped = true) : sendStep cfg w tr re li al s p = s := by
  simp [sendStep, h]

theorem runFrom_stopped (cfg : Config) (w : World) (tr : BuiltMessage → Except String Unit)
    (re : Bool) (li : Option Nat) (al : String → Bool) :
    ∀ (l : List (Nat × Row)) (s : BatchState), s.stopped = true →
      runFrom cfg w tr re li al s l = s
  | [], _, _ => rfl
  | p :: ps, s, h => by
    rw [runFrom_cons, sendStep_stopped cfg w tr re li al s p h]
    exact runFrom_stopped cfg w tr re li al ps s h

theorem runFrom_append (cfg : Config) (w : World) (tr : BuiltMessage → Except String Unit)
    (re : Bool) (li : Option Nat) (al : String → Bool) :
    ∀ (l1 l2 : List (Nat × Row)) (s : BatchState),
      runFrom cfg w tr re li al s (l1 ++ l2)
        = runFrom cfg w tr re li al (runFrom cfg w tr re li al s l1) l2
  | [], _, _ => rfl
  | p :: ps, l2, s => by
    rw [List.cons_append, runFrom_cons, runFrom_cons]
    exact runFrom_append cfg w tr re li al ps l2 _

theorem invalidCond_eq (row : Row) :
    (rowTo row == "" || !containsChar (rowTo row) '@') = !rowValid row := by
  cases hb : (rowTo row == "") <;> cases hc : containsChar (rowTo row) '@' <;>
    simp [rowValid, hb, hc]

theorem sendStep_eq_of_run (cfg : Config) (w : World) (tr : BuiltMessage → Except String Unit)
    (re : Bool) (li : Option Nat) (al : String → Bool) (s : BatchState) (p : Nat × Row)
    (h : s.stopped = false) :
    sendStep cfg w tr re li al s p =
      if rowEligible re al p.2 = true then attemptStep cfg w tr li s p else s := by
  simp only [sendStep, h, Bool.false_eq_true, if_false]
  rw [invalidCond_eq]
  cases hv : rowValid p.2
  · simp [rowEligible, hv]
  · cases hs : (!re && al (rowTo p.2))
    · have he : rowEligible re al p.2 = true := by
        simp only [rowEligible, hv, Bool.true_and]
        revert hs
        cases re <;> cases al (rowTo p.2) <;> simp
      simp only [Bool.not_true, Bool.false_eq_true, if_false, hs, he, if_true]
      simp only [attemptStep, h]
    · have he : rowEligible re al p.2 = false := by
        simp only [rowEligible, hv, Bool.true_and]
        revert hs
        cases re <;> cases al (rowTo p.2) <;> simp
      simp [hs, he]

theorem attemptStep_none (cfg : Config) (w : World) (tr : BuiltMessage → Except String Unit)
    (s : BatchState) (p : Nat × Row) (h : s.stopped = false) :
    attemptStep cfg w tr none s p =
      { events := s.events ++ [rowEvent cfg w tr p],
        calls := s.calls ++ rowCalls cfg w p,
        attempts := s.attempts ++ [p.1],
        sent := s.sent + (if rowSendOk cfg w tr p.2 = true then 1 else 0),
        stopped := false } := by
  cases s with
  | mk ev ca att se st =>
    simp only [BatchState.stopped] at h
    subst h
    cases hb : buildMessage cfg w p.2 with
    | error e => simp [attemptStep, rowEvent, rowCalls, rowSendOk, hb]
    | ok m =>
      cases ht : tr m with
      | error e => simp [attemptStep, rowEvent, rowCalls, rowSendOk, hb, ht]
      | ok u => simp [attemptStep, rowEvent, rowCalls, rowSendOk, reachedLimit, hb, ht]

theorem runFrom_none (cfg : Config) (w : World) (tr : BuiltMessage → Except String Unit)
    (re : Bool) (al : String → Bool) :
    ∀ (l : List (Nat × Row)) (s : BatchState), s.stopped = false →
      runFrom cfg w tr re none al s l =
        { events := s.events
            ++ (l.filter (fun q => rowEligible re al q.2)).map (rowEvent cfg w tr),
          calls := s.calls
            ++ ((l.filter (fun q => rowEligible re al q.2)).map (rowCalls cfg w)).flatten,
          attempts := s.attempts
            ++ (l.filter (fun q => rowEligible re al q.2)).map Prod.fst,
          sent := s.sent
            + (l.filter (fun q => rowEligible re al q.2)).countP
                (fun q => rowSendOk cfg w tr q.2),
          stopped := false }
  | [], s, h => by
    cases s with
    | mk ev ca att se st =>
      simp only [BatchState.stopped] at h
      subst h
      simp [runFrom]
  | p :: ps, s, h => by
    rw [runFrom_cons, sendStep_eq_of_run cfg w tr re none al s p h]
    by_cases he : rowEligible re al p.2 = true
    · rw [if_pos he, attemptStep_none cfg w tr s p h, runFrom_none cfg w tr re al ps _ rfl]
      simp only [List.filter_cons, he, if_true, List.map_cons, List.flatten_cons,
        List.countP_cons, List.append_assoc, List.singleton_append]
      simp [Nat.add_comm, Nat.add_assoc, Nat.add_left_comm]
    · have he2 : rowEligible re al p.2 = false := by
        revert he
        cases rowEligible re al p.2 <;> simp
      rw [if_neg he, runFrom_none cfg w tr re al ps s h]
      simp [List.filter_cons, he2]

theorem rowEvent_fst (cfg : Config) (w : World) (tr : BuiltMessage → Except String Unit)
    (p : Nat × Row) : (rowEvent cfg w tr p).1 = p.1 := by
  cases hb : buildMessage cfg w p.2 with
  | error e => simp [rowEvent, hb]
  | ok m => cases ht : tr m <;> simp [rowEvent, hb, ht]

/-- C1 (amended: when no limit is set): in a `resend=false`, `limit=None`
batch run, every row with a well-formed email whose latest ledger-index
record is not a success receives exactly one dispatch attempt, and every
row whose trimmed email has a successful latest ledger-index record
receives zero transport calls and contributes zero ledger appends. -/
theorem claim_C1 (cfg : Config) (w : World) (tr : BuiltMessage → Except String Unit)
    (log : List SentRecord) (rows : List Row) (i : Nat) (row : Row)
    (hget : rows[i]? = some row) :
    (rowValid row = true → alreadySent log (rowTo row) = false →
      (sendBatch cfg w tr false none log rows).attempts.count i = 1)
    ∧ (alreadySent log (rowTo row) = true →
        (sendBatch cfg w tr false none log rows).calls.count i = 0
        ∧ (sendBatch cfg w tr false none log rows).events.filter (fun ev => ev.1 == i) = []) := by
  have hb : sendBatch cfg w tr false none log rows =
      { events := ([] : List (Nat × SentRecord))
          ++ (rows.enum.filter (fun q => rowEligible false (alreadySent log) q.2)).map
              (rowEvent cfg w tr),
        calls := ([] : List Nat)
          ++ ((rows.enum.filter (fun q => rowEligible false (alreadySent log) q.2)).map
              (rowCalls cfg w)).flatten,
        attempts := ([] : List Nat)
          ++ (rows.enum.filter (fun q => rowEligible false (alreadySent log) q.2)).map
              Prod.fst,
        sent := 0
          + (rows.enum.filter (fun q => rowEligible false (alreadySent log) q.2)).countP
              (fun q => rowSendOk cfg w tr q.2),
        stopped := false } :=
    runFrom_none cfg w tr false (alreadySent log) rows.enum initState rfl
  have hmem : (i, row) ∈ rows.enum := by
    rw [List.mem_enum_iff_getElem?]
    exact hget
  constructor
  · intro hv hnot
    have he : rowEligible false (alreadySent log) row = true := by
      simp [rowEligible, hv, hnot]
    have hmem2 : i ∈ (rows.enum.filter
        (fun q => rowEligible false (alreadySent log) q.2)).map Prod.fst :=
      List.mem_map.mpr ⟨(i, row), List.mem_filter.mpr ⟨hmem, he⟩, rfl⟩
    have hnd : ((rows.enum.filter
        (fun q => rowEligible false (alreadySent log) q.2)).map Prod.fst).Nodup := by
      have hsub : ((rows.enum.filter
          (fun q => rowEligible false (alreadySent log) q.2)).map Prod.fst).Sublist
          (rows.enum.map Prod.fst) := (List.filter_sublist _).map _
      rw [List.enum_map_fst] at hsub
      exact hsub.nodup (List.nodup_range _)
    rw [hb]
    simpa using List.count_eq_one_of_mem hnd hmem2
  · intro hsuc
    have he : rowEligible false (alreadySent log) row = false := by
      simp [rowEligible, hsuc]
    have hrowuniq : ∀ q : Nat × Row, q ∈ rows.enum → q.1 = i → q.2 = row := by
      intro q hq hqi
      have hq4 := List.mem_enum_iff_getElem?.mp hq
      rw [hqi, hget] at hq4
      exact (Option.some.inj hq4).symm
    constructor
    · rw [hb]
      simp only [List.nil_append]
      rw [List.count_eq_zero]
      intro hmemc
      rcases List.mem_flatten.mp hmemc with ⟨sub, hsub, hin⟩
      rcases List.mem_map.mp hsub with ⟨q, hq, rfl⟩
      have hq2 := List.mem_filter.mp hq
      cases hbq : buildMessage cfg w q.2 with
      | error e =>
        rw [rowCalls, hbq] at hin
        exact absurd hin (List.not_mem_nil i)
      | ok m =>
        rw [rowCalls, hbq] at hin
        have hqi : q.1 = i := (List.mem_singleton.mp hin).symm
        have hq3 := hrowuniq q hq2.1 hqi
        rw [hq3, he] at hq2
        exact Bool.noConfusion hq2.2
    · rw [hb]
      simp only [List.nil_append]
      rw [List.filter_eq_nil_iff]
      intro ev hev
      rcases List.mem_map.mp hev with ⟨q, hq, rfl⟩
      have hq2 := List.mem_filter.mp hq
      rw [rowEvent_fst]
      intro hqi
      have hq3 := hrowuniq q hq2.1 (by simpa using hqi)
      rw [hq3, he] at hq2
      exact Bool.noConfusion hq2.2

/-- C1 counterexample: the claim as stated quantifies over every
`resend=false` run, but with `limit=1` and two unsent valid recipients the
second one — eligible by the claim's own criterion — receives zero
dispatch attempts. -/
theorem claim_C1_counterexample :
    ([rowA, rowB][1]? = some rowB)
    ∧ rowValid rowB = true
    ∧ alreadySent [] (rowTo rowB) = false
    ∧ (sendBatch cfg0 w0 trOk false (some 1) [] [rowA, rowB]).attempts.count 1 = 0
    ∧ (sendBatch cfg0 w0 trOk false (some 1) [] [rowA, rowB]).attempts = [0] := by
  refine ⟨by decide, by decide, by decide, by decide, by decide⟩

theorem claim_C1_witness :
    (sendBatch cfg0 w0 trOk false none [] [rowA]).attempts.count 0 = 1 :=
  (claim_C1 cfg0 w0 trOk [] [rowA] 0 rowA (by decide)).1 (by decide) (by decide)

theorem runFrom_inv (cfg : Config) (w : World) (tr : BuiltMessage → Except String Unit)
    (re : Bool) (al : String → Bool) (l : Nat) :
    ∀ (irows : List (Nat × Row)) (s : BatchState),
      s.stopped = decide (l ≤ s.sent) →
      s.sent = s.events.countP (fun ev => ev.2.status == "success") →
      (runFrom cfg w tr re (some l) al s irows).stopped
          = decide (l ≤ (runFrom cfg w tr re (some l) al s irows).sent)
        ∧ (runFrom cfg w tr re (some l) al s irows).sent
          = (runFrom cfg w tr re (some l) al s irows).events.countP
              (fun ev => ev.2.status == "success")
  | [], _, h1, h2 => ⟨h1, h2⟩
  | p :: ps, s, h1, h2 => by
    rw [runFrom_cons]
    cases hst : s.stopped with
    | true =>
      rw [sendStep_stopped cfg w tr re (some l) al s p hst]
      exact runFrom_inv cfg w tr re al l ps s h1 h2
    | false =>
      rw [sendStep_eq_of_run cfg w tr re (some l) al s p hst]
      by_cases he : rowEligible re al p.2 = true
      · rw [if_pos he]
        have hfail : (("failed" : String) == "success") = false := by decide
        have hsucc : (("success" : String) == "success") = true := by decide
        refine runFrom_inv cfg w tr re al l ps _ ?_ ?_
        · cases hbm : buildMessage cfg w p.2 with
          | error e =>
            simp only [attemptStep, hbm]
            exact h1
          | ok m =>
            cases ht : tr m with
            | error e =>
              simp only [attemptStep, hbm, ht]
              exact h1
            | ok u => simp [attemptStep, hbm, ht, reachedLimit]
        · cases hbm : buildMessage cfg w p.2 with
          | error e =>
            simp [attemptStep, hbm, List.countP_append, List.countP_cons, mkSentRecord,
              hfail, h2]
          | ok m =>
            cases ht : tr m with
            | error e =>
              simp [attemptStep, hbm, ht, List.countP_append, List.countP_cons,
                mkSentRecord, hfail, h2]
            | ok u =>
              simp [attemptStep, hbm, ht, List.countP_append, List.countP_cons,
                mkSentRecord, hsucc, h2]
      · rw [if_neg he]
        exact runFrom_inv cfg w tr re al l ps s h1 h2

/-- C3 (amended: for a positive limit; `limit=0` behaves exactly like
`limit=1` because the check `sent >= limit` runs only after a successful
send): with `limit=l >= 1`, once a prefix of the batch has accumulated `l`
successful sends the loop has stopped and processing any further
recipients changes nothing — no attempts, no transport calls, no ledger
appends; the `sent` counter always equals the number of `success` events
appended this run; and concretely a `limit=1` batch over two unsent valid
recipients appends exactly one `success` event, makes one transport call
and leaves the second recipient untouched. -/
theorem claim_C3 (cfg : Config) (w : World) (tr : BuiltMessage → Except String Unit)
    (re : Bool) (log : List SentRecord) (l : Nat) (hl : 1 ≤ l) :
    (∀ pre post : List (Nat × Row),
        l ≤ (runFrom cfg w tr re (some l) (alreadySent log) initState pre).sent →
        runFrom cfg w tr re (some l) (alreadySent log) initState (pre ++ post)
          = runFrom cfg w tr re (some l) (alreadySent log) initState pre)
    ∧ (∀ irows : List (Nat × Row),
        (runFrom cfg w tr re (some l) (alreadySent log) initState irows).sent
          = (runFrom cfg w tr re (some l) (alreadySent log) initState irows).events.countP
              (fun ev => ev.2.status == "success"))
    ∧ ((sendBatch cfg0 w0 trOk false (some 1) [] [rowA, rowB]).events.map
          (fun ev => (ev.1, ev.2.status)) = [(0, "success")]
        ∧ (sendBatch cfg0 w0 trOk false (some 1) [] [rowA, rowB]).attempts = [0]
        ∧ (sendBatch cfg0 w0 trOk false (some 1) [] [rowA, rowB]).calls = [0]
        ∧ rowValid rowA = true ∧ rowValid rowB = true
        ∧ alreadySent [] (rowTo rowA) = false ∧ alreadySent [] (rowTo rowB) = false) := by
  have h1 : initState.stopped = decide (l ≤ initState.sent) := by
    have hno : ¬ l ≤ (0 : Nat) := by omega
    simp [initState, hno]
  have h2 : initState.sent
      = initState.events.countP (fun ev => ev.2.status == "success") := by
    simp [initState]
  refine ⟨?_, ?_, by decide, by decide, by decide, by decide, by decide, by decide, by decide⟩
  · intro pre post hsent
    have hinv := runFrom_inv cfg w tr re (alreadySent log) l pre initState h1 h2
    have hstop : (runFrom cfg w tr re (some l) (alreadySent log) initState pre).stopped
        = true := by
      rw [hinv.1]
      simpa using hsent
    rw [runFrom_append, runFrom_stopped cfg w tr re (some l) (alreadySent log) post _ hstop]
  · intro irows
    exact (runFrom_inv cfg w tr re (alreadySent log) l irows initState h1 h2).2

theorem claim_C3_witness :
    runFrom cfg0 w0 trOk false (some 1) (alreadySent []) initState ([(0, rowA)] ++ [(1, rowB)])
      = runFrom cfg0 w0 trOk false (some 1) (alreadySent []) initState [(0, rowA)] :=
  (claim_C3 cfg0 w0 trOk false [] 1 (by decide)).1 [(0, rowA)] [(1, rowB)] (by decide)

/-- C3 counterexample: with `limit=0` the claim as stated says every
recipient is left unprocessed (zero successful sends had already occurred
before the first row), yet the run still makes a transport call and
appends a `success` event for the first eligible recipient. -/
theorem claim_C3_counterexample :
    (0 : Nat) ≤ initState.sent
    ∧ sendBatch cfg0 w0 trOk false (some 0) [] [rowA] ≠ initState
    ∧ (sendBatch cfg0 w0 trOk false (some 0) [] [rowA]).calls = [0]
    ∧ (sendBatch cfg0 w0 trOk false (some 0) [] [rowA]).events.map
        (fun ev => (ev.1, ev.2.status)) = [(0, "success")]
    ∧ rowValid rowA = true
    ∧ alreadySent [] (rowTo rowA) = false := by
  refine ⟨by decide, by decide, by decide, by decide, by decide, by decide⟩

/-- C4: a row whose email is absent, blank after trimming, or lacks `@` is
skipped as a no-op — no ledger event, no transport call, no attempt, the
state unchanged — and the loop continues with the remaining rows exactly
as if the invalid row were not there. -/
theorem claim_C4 (cfg : Config) (w : World) (tr : BuiltMessage → Except String Unit)
    (re : Bool) (li : Option Nat) (al : String → Bool)
    (s : BatchState) (i : Nat) (row : Row) (rest : List (Nat × Row))
    (h : rowValid row = false) :
    sendStep cfg w tr re li al s (i, row) = s
    ∧ runFrom cfg w tr re li al s ((i, row) :: rest) = runFrom cfg w tr re li al s rest := by
  have hstep : sendStep cfg w tr re li al s (i, row) = s := by
    cases hst : s.stopped with
    | true => exact sendStep_stopped cfg w tr re li al s (i, row) hst
    | false =>
      rw [sendStep_eq_of_run cfg w tr re li al s (i, row) hst]
      have he : rowEligible re al (i, row).2 = false := by
        simp [rowEligible, h]
      simp [he]
  exact ⟨hstep, by rw [runFrom_cons, hstep]⟩

theorem claim_C4_witness :
    sendStep cfg0 w0 trOk false none (alreadySent []) initState (0, rowBad) = initState
    ∧ runFrom cfg0 w0 trOk false none (alreadySent []) initState ((0, rowBad) :: [(1, rowA)])
      = runFrom cfg0 w0 trOk false none (alreadySent []) initState [(1, rowA)] :=
  claim_C4 cfg0 w0 trOk false none (alreadySent []) initState 0 rowBad [(1, rowA)] (by decide)

/-- C5: for an eligible well-formed recipient, a composition failure
appends exactly one `failed` ledger event carrying the error message and
the empty subject (no transport call), a transport failure appends exactly
one `failed` event carrying the error message and the rendered subject
(after one transport call), the loop is not stopped by either, and the
batch continues with the remaining rows from the resulting state. -/
theorem claim_C5 (cfg : Config) (w : World) (tr : BuiltMessage → Except String Unit)
    (re : Bool) (li : Option Nat) (al : String → Bool)
    (s : BatchState) (i : Nat) (row : Row)
    (hstop : s.stopped = false) (hv : rowValid row = true)
    (hskip : re = true ∨ al (rowTo row) = false) :
    (∀ e, buildMessage cfg w row = .error e →
      sendStep cfg w tr re li al s (i, row)
        = { s with events := s.events ++ [(i, mkSentRecord row "" "failed" e)],
                   attempts := s.attempts ++ [i] })
    ∧ (∀ m e, buildMessage cfg w row = .ok m → tr m = .error e →
      sendStep cfg w tr re li al s (i, row)
        = { s with events := s.events ++ [(i, mkSentRecord row m.subject "failed" e)],
                   attempts := s.attempts ++ [i], calls := s.calls ++ [i] })
    ∧ (∀ rest, runFrom cfg w tr re li al s ((i, row) :: rest)
        = runFrom cfg w tr re li al (sendStep cfg w tr re li al s (i, row)) rest) := by
  have he : rowEligible re al (i, row).2 = true := by
    rcases hskip with hre | hal
    · simp [rowEligible, hv, hre]
    · simp [rowEligible, hv, hal]
  have hstep := sendStep_eq_of_run cfg w tr re li al s (i, row) hstop
  rw [if_pos he] at hstep
  refine ⟨?_, ?_, fun rest => rfl⟩
  · intro e hbm
    rw [hstep]
    simp [attemptStep, hbm]
  · intro m e hbm ht
    rw [hstep]
    simp [attemptStep, hbm, ht]

theorem claim_C5_witness :
    sendStep cfg0 wNoFiles trOk false none (alreadySent []) initState (0, rowA)
      = { initState with
          events := [(0, mkSentRecord rowA "" "failed"
            "Missing subject template: templates/en/subject.txt")],
          attempts := [0] } :=
  (claim_C5 cfg0 wNoFiles trOk false none (alreadySent []) initState 0 rowA rfl
      (by decide) (Or.inr (by decide))).1
    "Missing subject template: templates/en/subject.txt" rfl

/-- C6: when a row's language tag is absent or blank (including
whitespace-only), template resolution falls back to `"en"`: the resolved
language is `"en"` and the conventional subject, body and HTML-body paths
are built from the template root joined with `"en"`.  The language value
passed in is exactly what `build_message` hands to `load_templates`. -/
theorem claim_C6 (cfg : Config) (row : Row)
    (hblank : pyStrip (pyOr row.lang "") = "")
    (h1 : row.subject_file = none) (h2 : row.body_file = none)
    (h3 : row.body_html_file = none) :
    templatePaths cfg row (pyLower (pyStrip (pyOr row.lang "en")))
      = (pyStrip (pathJoin (pathJoin cfg.templateRoot "en") "subject.txt"),
         pyStrip (pathJoin (pathJoin cfg.templateRoot "en") "body.txt"),
         pyStrip (pathJoin (pathJoin cfg.templateRoot "en") "body.html"),
         "en") := by
  have hen : normLang (pyLower (pyStrip (pyOr row.lang "en"))) = "en" := by
    cases hl : row.lang with
    | none => decide
    | some s =>
      by_cases hs : s = ""
      · subst hs
        decide
      · have hstrip : pyStrip s = "" := by
          rw [hl] at hblank
          simpa [pyOr, pyOrS, hs] using hblank
        simp only [pyOr, pyOrS, if_neg hs]
        rw [hstrip]
        decide
  simp only [templatePaths]
  rw [hen]
  simp only [h1, h2, h3, pyOr]

theorem claim_C6_witness :
    templatePaths cfg0 rowLangWs (pyLower (pyStrip (pyOr rowLangWs.lang "en")))
      = (pyStrip (pathJoin (pathJoin cfg0.templateRoot "en") "subject.txt"),
         pyStrip (pathJoin (pathJoin cfg0.templateRoot "en") "body.txt"),
         pyStrip (pathJoin (pathJoin cfg0.templateRoot "en") "body.html"),
         "en") :=
  claim_C6 cfg0 rowLangWs (by decide) rfl rfl rfl

theorem isFileSem_entryPath (entries : List DirEntry) (e : DirEntry)
    (hnd : (entries.map entryPath).Nodup) (he : e ∈ entries) :
    isFileSem entries (entryPath e) = e.regular := by
  cases hr : e.regular with
  | true =>
    apply List.any_eq_true.mpr
    exact ⟨e, he, by simp [hr]⟩
  | false =>
    cases hany : isFileSem entries (entryPath e) with
    | false => rfl
    | true =>
      exfalso
      rcases List.any_eq_true.mp hany with ⟨x, hx, hpx⟩
      have hpath : entryPath x = entryPath e := by
        have := (Bool.and_eq_true _ _).mp hpx
        exact eq_of_beq this.1
      have hxe : x = e := List.inj_on_of_nodup_map hnd hx he hpath
      have hxr : x.regular = true := ((Bool.and_eq_true _ _).mp hpx).2
      rw [hxe, hr] at hxr
      exact Bool.noConfusion hxr

/-- C7 (amended: `glob`'s `*` wildcard never matches hidden names, so the
fallback yields every regular file directly inside the directory whose
name does not start with a dot): when pattern expansion is empty, the
fallback flag is on and the per-language directory exists, the resolved
attachment list is a permutation of the paths of the non-hidden regular
entries directly inside that directory, sorted by code-point order. -/
theorem claim_C7 (cfg : Config) (w : World) (entries : List DirEntry)
    (lang attachField : String)
    (hflag : cfg.attachLangFallback = true)
    (hempty : expandAttachments w.glob w.isfile attachField = [])
    (hdir : w.isdir (attachLangDir lang) = true)
    (hglob : w.glob (pathJoin (attachLangDir lang) "*")
        = globStarSem entries (attachLangDir lang))
    (hisf : ∀ p, w.isfile p = isFileSem entries p)
    (hnd : (entries.map entryPath).Nodup) :
    (resolveAttachments cfg w lang attachField).Perm
        ((entries.filter (fun e =>
            e.dir == attachLangDir lang && !hiddenName e.name && e.regular)).map entryPath)
    ∧ List.Sorted (fun a b => strLeB a b = true)
        (resolveAttachments cfg w lang attachField) := by
  have hres : resolveAttachments cfg w lang attachField
      = sortStrings ((w.glob (pathJoin (attachLangDir lang) "*")).filter w.isfile) := by
    simp [resolveAttachments, hempty, hflag, hdir]
  have hq : ((globStarSem entries (attachLangDir lang)).filter w.isfile)
      = (globStarSem entries (attachLangDir lang)).filter (fun p => isFileSem entries p) :=
    List.filter_congr (fun x _ => hisf x)
  have hfil : (w.glob (pathJoin (attachLangDir lang) "*")).filter w.isfile
      = (entries.filter (fun e =>
          e.dir == attachLangDir lang && !hiddenName e.name && e.regular)).map entryPath := by
    rw [hglob, hq, globStarSem, List.filter_map]
    have hpt : List.filter ((fun p => isFileSem entries p) ∘ entryPath)
        (entries.filter (fun e => e.dir == attachLangDir lang && !hiddenName e.name))
        = List.filter (fun e => e.regular)
            (entries.filter (fun e => e.dir == attachLangDir lang && !hiddenName e.name)) := by
      refine List.filter_congr ?_
      intro e hee
      have hein : e ∈ entries := (List.mem_filter.mp hee).1
      simpa using isFileSem_entryPath entries e hnd hein
    rw [hpt, List.filter_filter]
    have hcomm : ∀ e : DirEntry,
        (e.regular && (e.dir == attachLangDir lang && !hiddenName e.name))
          = (e.dir == attachLangDir lang && !hiddenName e.name && e.regular) := by
      intro e
      cases e.regular <;> cases (e.dir == attachLangDir lang) <;>
        cases hiddenName e.name <;> rfl
    rw [List.filter_congr (fun e _ => hcomm e)]
  rw [hres, hfil]
  exact ⟨List.perm_insertionSort _ _, List.sorted_insertionSort _ _⟩

theorem claim_C7_witness :
    (resolveAttachments cfgFallback wPlain "en" "").Perm
        ((plainEntries.filter (fun e =>
            e.dir == attachLangDir "en" && !hiddenName e.name && e.regular)).map entryPath)
    ∧ List.Sorted (fun a b => strLeB a b = true)
        (resolveAttachments cfgFallback wPlain "en" "") :=
  claim_C7 cfgFallback wPlain plainEntries "en" "" rfl (by decide) (by decide)
    (by decide) (fun p => rfl) (by decide)

/-- C7 counterexample: a fallback directory whose only regular file starts
with a dot — the file is directly inside the existing directory, yet
`glob`'s `*` never matches it, so the resolved attachment list is empty
rather than containing every regular file of the directory. -/
theorem claim_C7_counterexample :
    expandAttachments wHidden.glob wHidden.isfile "" = []
    ∧ cfgFallback.attachLangFallback = true
    ∧ wHidden.isdir (attachLangDir "en") = true
    ∧ (hiddenEntries.filter (fun e =>
        e.dir == attachLangDir "en" && e.regular)).map entryPath
        = ["attachments/en/.secret"]
    ∧ isFileSem hiddenEntries "attachments/en/.secret" = true
    ∧ resolveAttachments cfgFallback wHidden "en" "" = [] := by
  refine ⟨by decide, by decide, by decide, by decide, by decide, by decide⟩

/-- C9: when composition succeeds for a row with a truthy `bcc` field, the
returned message carries no `Bcc` header, and the transport recipient list
is exactly the trimmed primary address, then the cc addresses, then every
trimmed non-empty bcc address — so each bcc address is included, after the
primary and cc entries. -/
theorem claim_C9 (cfg : Config) (w : World) (row : Row) (m : BuiltMessage)
    (hok : buildMessage cfg w row = .ok m)
    (hbcc : optTruthy row.bcc = true) :
    ("Bcc" ∉ m.headers.map Prod.fst)
    ∧ m.recipients
        = [pyStrip (pyOr row.email "")]
          ++ ((if optTruthy row.cc then splitAddrs (pyOr row.cc "") else [])
          ++ splitAddrs (pyOr row.bcc ""))
    ∧ ∀ a ∈ splitAddrs (pyOr row.bcc ""), a ∈ m.recipients := by
  rw [buildMessage] at hok
  by_cases hinv : (pyStrip (pyOr row.email "") = ""
      || !containsChar (pyStrip (pyOr row.email "")) '@') = true
  · rw [if_pos hinv] at hok
    exact absurd hok (by simp)
  · rw [if_neg hinv] at hok
    cases hlt : load_templates cfg w (pyLower (pyStrip (pyOr row.lang "en"))) row with
    | error e =>
      rw [hlt] at hok
      exact absurd hok (by simp)
    | ok quad =>
      obtain ⟨subjectTpl, bodyTpl, htmlTpl, lang⟩ := quad
      rw [hlt] at hok
      simp only [Except.ok.injEq] at hok
      subst hok
      simp only [hbcc, if_true]
      refine ⟨?_, rfl, ?_⟩
      · intro hmm
        rcases List.mem_map.mp hmm with ⟨h, hf, hfst⟩
        have hne := (List.mem_filter.mp hf).2
        rw [hfst] at hne
        simp at hne
      · intro a ha
        exact List.mem_append.mpr (Or.inr ha)

theorem claim_C9_witness :
    ("Bcc" ∉ mBcc.headers.map Prod.fst)
    ∧ mBcc.recipients
        = [pyStrip (pyOr rowBcc.email "")]
          ++ ((if optTruthy rowBcc.cc then splitAddrs (pyOr rowBcc.cc "") else [])
          ++ splitAddrs (pyOr rowBcc.bcc ""))
    ∧ ∀ a ∈ splitAddrs (pyOr rowBcc.bcc ""), a ∈ mBcc.recipients :=
  claim_C9 cfg0 w0 rowBcc mBcc rfl rfl

end Mailer
